import Mathlib

/-!
# Verification of the kpi collection/asset permission layer

Shallow embedding of `src/kpi/models/collection.py` and
`src/kpi/models/asset.py` (a Django application).  Permission records are
rows of the `ObjectPermission` model; users and permissions are referenced
by their integer primary keys.  The generic ORM store is modelled as the
list of rows attached to each object; queryset `filter(...)` is list
filtering, `create(...)` appends a row, `delete()` removes the matching
rows.  A Python `set` of pairs is modelled as a deduplicated list.
-/

/-- One `ObjectPermission` row attached to some target object:
`{user_id, permission_id, deny, inherited}` (the target itself is implicit:
each object's rows are kept in its own list). -/
structure PermRecord where
  user : Nat
  perm : Nat
  deny : Bool
  inherited : Bool
deriving DecidableEq, Repr

/-- The optional `**kwargs` filters accepted by
`ObjectPermission.objects.filter_for_object` as used in `collection.py`:
equality filters on `user_id`, `permission_id` (a `permission__codename`
lookup resolves to a single permission id for the object's content type)
and `inherited`.  `deny` is passed separately by `_effective_perms`. -/
structure PermFilter where
  user? : Option Nat
  perm? : Option Nat
  inherited? : Option Bool
deriving DecidableEq, Repr

/-- Unfiltered query (`_effective_perms()` with no kwargs). -/
def noFilter : PermFilter := ⟨none, none, none⟩

/-- An optional equality filter: absent means "match everything". -/
def optMatch {α : Type} [BEq α] : Option α → α → Bool
  | none, _ => true
  | some v, x => x == v

/-- Whether a row satisfies the kwargs filters
(`filter_for_object(self, **kwargs)` restricted to one object's rows). -/
def PermFilter.matches (f : PermFilter) (r : PermRecord) : Bool :=
  optMatch f.user? r.user && optMatch f.perm? r.perm &&
    optMatch f.inherited? r.inherited

/-- `set(...filter_for_object(self, deny=False, **kwargs).values_list('user_id', 'permission_id'))`
— the grant pairs of `Collection._effective_perms` (a Python set of pairs,
modelled as a deduplicated list). -/
def grant_pairs (recs : List PermRecord) (f : PermFilter) : List (Nat × Nat) :=
  ((recs.filter fun r => f.matches r && r.deny == false).map
    fun r => (r.user, r.perm)).dedup

/-- `set(...filter_for_object(self, deny=True, **kwargs).values_list('user_id', 'permission_id'))`
— the deny pairs of `Collection._effective_perms`. -/
def deny_pairs (recs : List PermRecord) (f : PermFilter) : List (Nat × Nat) :=
  ((recs.filter fun r => f.matches r && r.deny == true).map
    fun r => (r.user, r.perm)).dedup

/-- `Collection._effective_perms`: grant pairs minus deny pairs
(`grant_perms.difference(deny_perms)`). -/
def effective_perms (recs : List PermRecord) (f : PermFilter) : List (Nat × Nat) :=
  (grant_pairs recs f).filter fun q => !(deny_pairs recs f).contains q

/-- `_effective_perms()` with no kwargs, as called on `self.parent`. -/
def eff_all (recs : List PermRecord) : List (Nat × Nat) :=
  effective_perms recs noFilter

/-- `Collection.has_perm`: `len(self._effective_perms(user_id=..., permission__codename=...)) == 1`. -/
def has_perm (recs : List PermRecord) (u p : Nat) : Bool :=
  (effective_perms recs ⟨some u, some p, none⟩).length == 1

/-- Modelled from the spec: `ObjectPermission.objects.get_or_create_for_object`
(defined in `object_permission.py`, which is not part of the sources) —
§4.2 step 4 "using get-or-create semantics to avoid duplicate rows".  The
lookup uses the supplied fields `(user, permission, inherited=True)`; a
created row takes the model default `deny=False`. -/
def get_or_create_inherited (recs : List PermRecord) (u p : Nat) : List PermRecord :=
  if recs.any fun r => r.user == u && r.perm == p && r.inherited then recs
  else recs ++ [⟨u, p, false, true⟩]

/-- `Collection._recalculate_inherited_perms`, acting on the node's own rows.
`parentEff` is `self.parent._effective_perms()` when a parent exists
(`none` encodes `self.parent is None`).  Steps, in source order:
delete all `inherited=True` rows; stop if there is no parent; create one
inherited row per parent effective pair; then give the owner every
permission of the content type via get-or-create.  Creating one row per
element of a queryset/set is embedded as appending the mapped list. -/
def recalculate_inherited_perms (ctPerms : List Nat) (owner : Nat)
    (parentEff : Option (List (Nat × Nat))) (recs : List PermRecord) :
    List PermRecord :=
  let cleared := recs.filter fun r => !r.inherited
  match parentEff with
  | none => cleared
  | some eff =>
    let withParent :=
      cleared ++ (eff.map fun q => ⟨q.1, q.2, false, true⟩)
    ctPerms.foldl (fun acc p => get_or_create_inherited acc owner p) withParent

/-- The inherited rows of an object, projected to (user, permission) pairs. -/
def inherited_pairs (recs : List PermRecord) : List (Nat × Nat) :=
  (recs.filter fun r => r.inherited).map fun r => (r.user, r.perm)

/-- The no-op test of `Collection.assign_perm`: an identical explicit row
(same user, permission, deny value, `inherited=False`) already exists. -/
def has_identical_explicit (recs : List PermRecord) (u p : Nat) (d : Bool) : Bool :=
  recs.any fun r => r.user == u && !r.inherited && r.perm == p && r.deny == d

/-- Store effect of `Collection.assign_perm` on the node's own rows:
no-op when an identical explicit row exists; otherwise delete every
explicit row for the same (user, permission) with the opposite deny value,
then create the new explicit row. -/
def assign_perm_records (recs : List PermRecord) (u p : Nat) (d : Bool) :
    List PermRecord :=
  if has_identical_explicit recs u p d then recs
  else (recs.filter fun r =>
      !(r.user == u && r.perm == p && r.deny == !d && !r.inherited))
    ++ [⟨u, p, d, false⟩]

/-- Store effect of `Collection.remove_perm` on the node's own rows:
delete the matching explicit rows. -/
def remove_perm_records (recs : List PermRecord) (u p : Nat) (d : Bool) :
    List PermRecord :=
  recs.filter fun r =>
    !(r.user == u && r.perm == p && r.deny == d && !r.inherited)

/-- Grant/deny exclusivity invariant: no explicit grant row and explicit
deny row coexist for the same (user, permission) pair. -/
def explicit_exclusive (recs : List PermRecord) : Bool :=
  recs.all fun r => recs.all fun s =>
    !(!r.inherited && !s.inherited && r.user == s.user && r.perm == s.perm
      && (r.deny != s.deny))

/-- Structural metadata of one collection node.  The tree itself is
maintained by the external `mptt` library (§1): `descendants` is the flat
pre-order list returned by `get_descendants()`, `assets` the ids of the
attached survey assets (`self.survey_assets.all()`). -/
structure NodeMeta where
  parent : Option Nat
  owner : Nat
  assets : List Nat
  descendants : List Nat
deriving DecidableEq, Repr

/-- The collection forest plus the permission store: collection id ↦
metadata, and collection id ↦ its `ObjectPermission` rows. -/
structure World where
  meta : List (Nat × NodeMeta)
  store : List (Nat × List PermRecord)
deriving DecidableEq, Repr

/-- Metadata lookup (nodes are assumed present; a missing id yields inert
defaults). -/
def World.metaOf (w : World) (nid : Nat) : NodeMeta :=
  match w.meta.find? (fun kv => kv.1 == nid) with
  | some kv => kv.2
  | none => ⟨none, 0, [], []⟩

/-- The permission rows currently stored for a collection id. -/
def World.recsOf (w : World) (nid : Nat) : List PermRecord :=
  match w.store.find? (fun kv => kv.1 == nid) with
  | some kv => kv.2
  | none => []

/-- Replace a collection's permission rows in the store. -/
def World.setRecs (w : World) (nid : Nat) (rs : List PermRecord) : World :=
  if w.store.any (fun kv => kv.1 == nid) then
    ⟨w.meta, w.store.map fun kv => if kv.1 == nid then (nid, rs) else kv⟩
  else ⟨w.meta, (nid, rs) :: w.store⟩

/-- `Collection._recalculate_inherited_perms` at the store level: the
parent's effective permissions are read from the store at call time. -/
def recalc_node (ctPerms : List Nat) (w : World) (nid : Nat) : World :=
  let m := w.metaOf nid
  let pe := m.parent.map fun pid => eff_all (w.recsOf pid)
  w.setRecs nid (recalculate_inherited_perms ctPerms m.owner pe (w.recsOf nid))

/-- The survey-asset cascade loop of `collection.py`
(`for survey_asset in ...: suvey_asset._recalculate_inherited_perms()`):
the loop variable is `survey_asset`, but the body reads the never-bound
name `suvey_asset`, so the first iteration raises
`NameError("suvey_asset")`; with no attached assets the body never runs. -/
def suvey_asset_loop : List Nat → Option String
  | [] => none
  | _ :: _ => some "suvey_asset"

/-- Result of a cascading mutation: normal completion, or a propagating
Python `NameError` together with the store state at raise time. -/
inductive CascResult where
  | ok (w : World)
  | nameError (w : World) (unboundName : String)
deriving DecidableEq, Repr

/-- The descendant cascade shared by `assign_perm` and `remove_perm`:
`for descendant in self.get_descendants(): descendant._recalculate...;
for survey_asset in descendant.survey_assets.all(): suvey_asset...`. -/
def descendants_loop (ctPerms : List Nat) (w : World) :
    List Nat → CascResult
  | [] => .ok w
  | d :: rest =>
    let w2 := recalc_node ctPerms w d
    match suvey_asset_loop ((w2.metaOf d).assets) with
    | some e => .nameError w2 e
    | none => descendants_loop ctPerms w2 rest

/-- `Collection.assign_perm`: no-op on an identical explicit row, else
delete the contradictory explicit rows, create the new explicit row, then
cascade to the node's own survey assets and to every descendant. -/
def assign_perm (ctPerms : List Nat) (w : World) (nid u p : Nat)
    (d : Bool) : CascResult :=
  let recs := w.recsOf nid
  if has_identical_explicit recs u p d then .ok w
  else
    let w2 := w.setRecs nid (assign_perm_records recs u p d)
    match suvey_asset_loop ((w2.metaOf nid).assets) with
    | some e => .nameError w2 e
    | none => descendants_loop ctPerms w2 ((w2.metaOf nid).descendants)

/-- `Collection.remove_perm`: delete the matching explicit rows, then the
same cascade as `assign_perm`. -/
def remove_perm (ctPerms : List Nat) (w : World) (nid u p : Nat)
    (d : Bool) : CascResult :=
  let w2 := w.setRecs nid (remove_perm_records (w.recsOf nid) u p d)
  match suvey_asset_loop ((w2.metaOf nid).assets) with
  | some e => .nameError w2 e
  | none => descendants_loop ctPerms w2 ((w2.metaOf nid).descendants)

/-- `ASSET_TYPES` of `asset.py`. -/
inductive AssetType where
  | text
  | question
  | block
  | survey
  | empty
deriving DecidableEq, Repr

/-- Python 2 comparison `row_count > 1` where `row_count` may be `None`
(`summary.get('row_count')` on a summary with no row count): in CPython 2,
`None` compares less than every integer, so `None > 1` is `False`. -/
def py_gt_one : Option Nat → Bool
  | none => false
  | some n => decide (1 < n)

/-- `asset.py` lines 401–407: the asset-type transition run on every save —
only evaluated when the current type is `question` or `block`;
`row_count == 1` forces `question`, `row_count > 1` forces `block`,
anything else leaves the type unchanged. -/
def infer_asset_type (t : AssetType) (rowCount : Option Nat) : AssetType :=
  if t = AssetType.question ∨ t = AssetType.block then
    if rowCount = some 1 then AssetType.question
    else if py_gt_one rowCount then AssetType.block
    else t
  else t

/-- One `AssetVersion` row as created by `Asset.save`
(`name`, `version_content`, `_deployment_data`, `deployed`).  Content
documents are opaque tokens (`Nat`). -/
structure AssetVersion where
  name : String
  versionContent : Nat
  deploymentData : Nat
  deployed : Bool
deriving DecidableEq, Repr

/-- The `Asset` fields `Asset.save` touches.  `rowCount` stands for
`summary.get('row_count')`; `versions` is the `asset_versions` relation. -/
structure AssetSt where
  name : String
  content : Option Nat
  rowCount : Option Nat
  assetType : AssetType
  deploymentData : Nat
  versions : List AssetVersion
deriving DecidableEq, Repr

/-- `if self.content is None: self.content = {}` — `0` encodes the empty
document. -/
def content_or_empty (a : AssetSt) : Nat :=
  match a.content with
  | none => 0
  | some c => c

/-- Modelled from the spec: `_adjust_content_on_save` delegates to the
out-of-scope content-transformation pipeline (standardization, autonaming,
kuid assignment, §1/§6), here an opaque function `aF` from a document to
the adjusted document plus the optional `form_title` used to rename the
asset.  Skipped entirely when `adjust_content=False`. -/
def adjusted_content (aF : Nat → Nat × Option String) (a : AssetSt)
    (adjustContent : Bool) : Nat :=
  if adjustContent then (aF (content_or_empty a)).1
  else content_or_empty a

/-- The asset's name after the optional content adjustment (a `form_title`
popped from the content renames the asset). -/
def adjusted_name (aF : Nat → Nat × Option String) (a : AssetSt)
    (adjustContent : Bool) : String :=
  if adjustContent then
    match (aF (content_or_empty a)).2 with
    | some t => t
    | none => a.name
  else a.name

/-- `Asset.save`: default the content, optionally adjust it, repopulate the
summary (`rF` is the external `AssetContentAnalyzer` row count, §6), run
the asset-type inference, then append one `AssetVersion` with
`deployed=False` unless `create_version=False`. -/
def asset_save (aF : Nat → Nat × Option String) (rF : Nat → Option Nat)
    (adjustContent createVersion : Bool) (a : AssetSt) : AssetSt :=
  let c := adjusted_content aF a adjustContent
  let nm := adjusted_name aF a adjustContent
  let rc := rF c
  let t := infer_asset_type a.assetType rc
  if createVersion then
    ⟨nm, some c, rc, t, a.deploymentData,
      a.versions ++ [⟨nm, c, a.deploymentData, false⟩]⟩
  else ⟨nm, some c, rc, t, a.deploymentData, a.versions⟩

/-- Concrete content pipeline used by scenario witnesses: adjustment maps a
document to its successor and pops no title. -/
def aF0 : Nat → Nat × Option String := fun c => (c + 1, none)

/-- Concrete analyzer used by scenario witnesses: every document summarizes
to three rows. -/
def rF3 : Nat → Option Nat := fun _ => some 3

/-- Concrete analyzer used by scenario witnesses: the summary carries no
row count. -/
def rF_missing : Nat → Option Nat := fun _ => none

/-- A question asset fixture. -/
def asset_q : AssetSt := ⟨"q", some 5, none, AssetType.question, 0, []⟩

/-- A block asset fixture. -/
def asset_b : AssetSt := ⟨"b", some 7, none, AssetType.block, 0, []⟩

-- ### Helper lemmas about recalculation

/-- Get-or-create only ever appends an inherited row, so the explicit
(non-inherited) rows are untouched. -/
theorem filter_not_inherited_get_or_create (acc : List PermRecord) (u p : Nat) :
    (get_or_create_inherited acc u p).filter (fun r => !r.inherited)
      = acc.filter fun r => !r.inherited := by
  unfold get_or_create_inherited
  split
  · rfl
  · rw [List.filter_append]
    simp

/-- The owner-override fold leaves the explicit rows untouched. -/
theorem filter_not_inherited_fold (owner : Nat) (l : List Nat)
    (acc : List PermRecord) :
    ((l.foldl (fun acc p => get_or_create_inherited acc owner p) acc).filter
        fun r => !r.inherited)
      = acc.filter fun r => !r.inherited := by
  induction l generalizing acc with
  | nil => rfl
  | cons p l ih =>
      rw [List.foldl_cons, ih, filter_not_inherited_get_or_create]

/-- The rows copied from the parent are all inherited. -/
theorem filter_not_inherited_parent_copies (eff : List (Nat × Nat)) :
    ((eff.map fun q => (⟨q.1, q.2, false, true⟩ : PermRecord)).filter
        fun r => !r.inherited) = [] := by
  induction eff with
  | nil => rfl
  | cons q l ih => simpa using ih

/-- `inherited_pairs` distributes over row-list concatenation. -/
theorem inherited_pairs_append (l₁ l₂ : List PermRecord) :
    inherited_pairs (l₁ ++ l₂) = inherited_pairs l₁ ++ inherited_pairs l₂ := by
  simp [inherited_pairs, List.filter_append]

/-- After deleting the inherited rows, no inherited pair remains. -/
theorem inherited_pairs_cleared (recs : List PermRecord) :
    inherited_pairs (recs.filter fun r => !r.inherited) = [] := by
  simp [inherited_pairs, List.filter_filter]

/-- The rows copied from the parent project back to exactly the parent's
effective pairs. -/
theorem inherited_pairs_parent_copies (eff : List (Nat × Nat)) :
    inherited_pairs (eff.map fun q => (⟨q.1, q.2, false, true⟩ : PermRecord))
      = eff := by
  induction eff with
  | nil => rfl
  | cons q l ih => simpa [inherited_pairs] using congrArg (List.cons q) ih

/-- The existence test used by get-or-create is exactly membership of the
pair among the object's inherited pairs. -/
theorem any_user_perm_inherited_iff (recs : List PermRecord) (u p : Nat) :
    (recs.any fun r => r.user == u && r.perm == p && r.inherited) = true
      ↔ (u, p) ∈ inherited_pairs recs := by
  simp only [inherited_pairs, List.any_eq_true, List.mem_map, List.mem_filter,
    Bool.and_eq_true, beq_iff_eq, Prod.mk.injEq]
  constructor
  · rintro ⟨r, hmem, ⟨hu, hp⟩, hinh⟩
    exact ⟨r, ⟨hmem, hinh⟩, hu, hp⟩
  · rintro ⟨r, ⟨hmem, hinh⟩, hu, hp⟩
    exact ⟨r, hmem, ⟨hu, hp⟩, hinh⟩

/-- Effect of one get-or-create call on the inherited pairs: no-op when the
pair is already present, append of the single pair otherwise. -/
theorem inherited_pairs_get_or_create (acc : List PermRecord) (u p : Nat) :
    ((u, p) ∈ inherited_pairs acc
        ∧ inherited_pairs (get_or_create_inherited acc u p)
            = inherited_pairs acc)
      ∨ ((u, p) ∉ inherited_pairs acc
        ∧ inherited_pairs (get_or_create_inherited acc u p)
            = inherited_pairs acc ++ [(u, p)]) := by
  unfold get_or_create_inherited
  by_cases h : (acc.any fun r => r.user == u && r.perm == p && r.inherited) = true
  · left
    refine ⟨(any_user_perm_inherited_iff acc u p).1 h, ?_⟩
    simp [h]
  · right
    refine ⟨fun hm => h ((any_user_perm_inherited_iff acc u p).2 hm), ?_⟩
    have h' : (acc.any fun r => r.user == u && r.perm == p && r.inherited) = false := by
      simpa using h
    simp [h', inherited_pairs_append, inherited_pairs]

/-- The owner-override fold adds exactly the owner's pairs (as a set). -/
theorem inherited_pairs_fold_toFinset (owner : Nat) (l : List Nat)
    (acc : List PermRecord) :
    (inherited_pairs
        (l.foldl (fun acc p => get_or_create_inherited acc owner p) acc)).toFinset
      = (inherited_pairs acc).toFinset ∪ (l.map fun p => (owner, p)).toFinset := by
  induction l generalizing acc with
  | nil => simp
  | cons p l ih =>
      rw [List.foldl_cons, ih]
      rcases inherited_pairs_get_or_create acc owner p with ⟨hm, he⟩ | ⟨hm, he⟩
      · rw [he]
        ext q
        simp only [Finset.mem_union, List.mem_toFinset, List.mem_map,
          List.map_cons, List.mem_cons]
        constructor
        · rintro (h | h)
          · exact Or.inl h
          · exact Or.inr (Or.inr h)
        · rintro (h | h | h)
          · exact Or.inl h
          · subst h; exact Or.inl hm
          · exact Or.inr h
      · rw [he]
        ext q
        simp only [Finset.mem_union, List.mem_toFinset, List.mem_map,
          List.map_cons, List.mem_cons, List.mem_append, List.mem_singleton]
        tauto

/-- The owner-override fold keeps the inherited pairs duplicate-free. -/
theorem inherited_pairs_fold_nodup (owner : Nat) (l : List Nat)
    (acc : List PermRecord) (h : (inherited_pairs acc).Nodup) :
    (inherited_pairs
        (l.foldl (fun acc p => get_or_create_inherited acc owner p) acc)).Nodup := by
  induction l generalizing acc with
  | nil => exact h
  | cons p l ih =>
      rw [List.foldl_cons]
      apply ih
      rcases inherited_pairs_get_or_create acc owner p with ⟨_, he⟩ | ⟨hm, he⟩
      · rwa [he]
      · rw [he]
        simp [List.nodup_append, h, hm]

/-- Every row produced by the owner-override fold that is inherited is a
grant (`deny=False`), provided this held for the starting rows. -/
theorem fold_inherited_deny_false (owner : Nat) (l : List Nat)
    (acc : List PermRecord)
    (h : ∀ r ∈ acc, r.inherited = true → r.deny = false) :
    ∀ r ∈ l.foldl (fun acc p => get_or_create_inherited acc owner p) acc,
      r.inherited = true → r.deny = false := by
  induction l generalizing acc with
  | nil => exact h
  | cons p l ih =>
      rw [List.foldl_cons]
      apply ih
      intro r hr hinh
      unfold get_or_create_inherited at hr
      split at hr
      · exact h r hr hinh
      · rcases List.mem_append.1 hr with h1 | h1
        · exact h r h1 hinh
        · simp at h1
          subst h1
          rfl

/-- Deleting the inherited rows and copying the parent pairs yields only
grant rows among the inherited ones. -/
theorem with_parent_deny_false (recs : List PermRecord) (eff : List (Nat × Nat)) :
    ∀ r ∈ (recs.filter fun r => !r.inherited)
          ++ (eff.map fun q => (⟨q.1, q.2, false, true⟩ : PermRecord)),
      r.inherited = true → r.deny = false := by
  intro r hr hinh
  rcases List.mem_append.1 hr with h1 | h1
  · have h2 := (List.mem_filter.1 h1).2
    rw [hinh] at h2
    cases h2
  · rcases List.mem_map.1 h1 with ⟨q, _, rfl⟩
    rfl

/-- The effective pairs of any object form a duplicate-free list. -/
theorem effective_perms_nodup (recs : List PermRecord) (f : PermFilter) :
    (effective_perms recs f).Nodup :=
  List.Nodup.filter _ (List.nodup_dedup _)

-- ### Claim C1: inherited rows after recalculation with a parent

/-- **C1.**  For a node with a parent: immediately after
`_recalculate_inherited_perms`, the inherited rows are exactly one
inherited grant per (user, permission) pair of the parent's effective
permissions plus one inherited grant per content-type permission for the
node's owner — as a set equality on pairs, with no duplicate rows
(`Nodup`), and every inherited row is a grant
(`res.all (fun r => !r.inherited || !r.deny)`). -/
theorem recalc_inherited_rows_exact (ctPerms : List Nat) (owner : Nat)
    (parentRecs recs : List PermRecord) :
    (inherited_pairs (recalculate_inherited_perms ctPerms owner
          (some (eff_all parentRecs)) recs)).toFinset
        = (eff_all parentRecs).toFinset
            ∪ (ctPerms.map fun p => (owner, p)).toFinset
      ∧ (inherited_pairs (recalculate_inherited_perms ctPerms owner
            (some (eff_all parentRecs)) recs)).Nodup
      ∧ ((recalculate_inherited_perms ctPerms owner
            (some (eff_all parentRecs)) recs).all
          fun r => !r.inherited || !r.deny) = true := by
  have hfold : recalculate_inherited_perms ctPerms owner
      (some (eff_all parentRecs)) recs
    = ctPerms.foldl (fun acc p => get_or_create_inherited acc owner p)
        ((recs.filter fun r => !r.inherited)
          ++ ((eff_all parentRecs).map fun q => ⟨q.1, q.2, false, true⟩)) := rfl
  have hpairs : inherited_pairs ((recs.filter fun r => !r.inherited)
      ++ ((eff_all parentRecs).map fun q => ⟨q.1, q.2, false, true⟩))
    = eff_all parentRecs := by
    rw [inherited_pairs_append, inherited_pairs_cleared,
      inherited_pairs_parent_copies, List.nil_append]
  refine ⟨?_, ?_, ?_⟩
  · rw [hfold, inherited_pairs_fold_toFinset, hpairs]
  · rw [hfold]
    apply inherited_pairs_fold_nodup
    rw [hpairs]
    exact effective_perms_nodup parentRecs noFilter
  · rw [hfold, List.all_eq_true]
    intro r hr
    have h := fold_inherited_deny_false owner ctPerms _
      (with_parent_deny_false recs (eff_all parentRecs)) r hr
    cases hi : r.inherited
    · rfl
    · have := h hi
      simp [this]

-- ### Claim C4: effective permissions are a pure set difference

/-- `contains` on a pair list is the membership test. -/
theorem list_contains_eq_true_iff {α : Type} [BEq α] [LawfulBEq α]
    (l : List α) (x : α) : l.contains x = true ↔ x ∈ l := by
  simp

/-- `contains` returning `false` is non-membership. -/
theorem list_contains_eq_false_iff {α : Type} [BEq α] [LawfulBEq α]
    (l : List α) (x : α) : l.contains x = false ↔ x ∉ l := by
  simp

/-- Membership in the deny set of `_effective_perms`. -/
theorem deny_pairs_mem_iff (recs : List PermRecord) (f : PermFilter)
    (a b : Nat) :
    (a, b) ∈ deny_pairs recs f
      ↔ ∃ r ∈ recs, f.matches r = true ∧ r.deny = true ∧ r.user = a ∧ r.perm = b := by
  simp only [deny_pairs, List.mem_dedup, List.mem_map, List.mem_filter,
    Bool.and_eq_true, beq_iff_eq, Prod.mk.injEq]
  constructor
  · rintro ⟨r, ⟨hr, hm, hd⟩, hu, hp⟩
    exact ⟨r, hr, hm, hd, hu, hp⟩
  · rintro ⟨r, hr, hm, hd, hu, hp⟩
    exact ⟨r, ⟨hr, hm, hd⟩, hu, hp⟩

/-- Membership in the grant set of `_effective_perms`. -/
theorem grant_pairs_mem_iff (recs : List PermRecord) (f : PermFilter)
    (a b : Nat) :
    (a, b) ∈ grant_pairs recs f
      ↔ ∃ r ∈ recs, f.matches r = true ∧ r.deny = false ∧ r.user = a ∧ r.perm = b := by
  simp only [grant_pairs, List.mem_dedup, List.mem_map, List.mem_filter,
    Bool.and_eq_true, beq_iff_eq, Prod.mk.injEq]
  constructor
  · rintro ⟨r, ⟨hr, hm, hd⟩, hu, hp⟩
    exact ⟨r, hr, hm, hd, hu, hp⟩
  · rintro ⟨r, hr, hm, hd, hu, hp⟩
    exact ⟨r, ⟨hr, hm, hd⟩, hu, hp⟩

/-- Membership in `_effective_perms`: a pair is effective iff some matching
grant row exists and no matching deny row exists.  Note that the
`inherited` flag of the rows plays no role unless explicitly filtered on. -/
theorem effective_perms_mem_iff (recs : List PermRecord) (f : PermFilter)
    (a b : Nat) :
    (a, b) ∈ effective_perms recs f
      ↔ ((∃ r ∈ recs, f.matches r = true ∧ r.deny = false ∧ r.user = a ∧ r.perm = b)
          ∧ ¬ ∃ r ∈ recs, f.matches r = true ∧ r.deny = true ∧ r.user = a ∧ r.perm = b) := by
  rw [effective_perms, List.mem_filter, grant_pairs_mem_iff]
  constructor
  · rintro ⟨hg, hc⟩
    refine ⟨hg, fun hd => ?_⟩
    rw [Bool.not_eq_true'] at hc
    exact (list_contains_eq_false_iff _ _).1 hc ((deny_pairs_mem_iff recs f a b).2 hd)
  · rintro ⟨hg, hc⟩
    refine ⟨hg, ?_⟩
    rw [Bool.not_eq_true']
    exact (list_contains_eq_false_iff _ _).2
      fun hm => hc ((deny_pairs_mem_iff recs f a b).1 hm)

/-- Under the `has_perm` filters (fixed user and permission), every
effective pair is the queried pair itself. -/
theorem effective_perms_filtered_subsingleton (recs : List PermRecord)
    (u p : Nat) :
    ∀ q ∈ effective_perms recs ⟨some u, some p, none⟩, q = (u, p) := by
  intro q hq
  have h1 : q ∈ grant_pairs recs ⟨some u, some p, none⟩ :=
    (List.mem_filter.1 hq).1
  simp only [grant_pairs, List.mem_dedup, List.mem_map, List.mem_filter,
    PermFilter.matches, optMatch, Bool.and_eq_true, beq_iff_eq] at h1
  obtain ⟨r, ⟨_, ⟨⟨hu, hp⟩, _⟩, _⟩, rfl⟩ := h1
  simp [hu, hp]

/-- On a duplicate-free list whose members all equal `c`, the length-one
test coincides with the membership test for `c`. -/
theorem length_eq_one_subsingleton {α : Type} [DecidableEq α] [BEq α]
    [LawfulBEq α] (l : List α) (c : α) (hn : l.Nodup)
    (hall : ∀ x ∈ l, x = c) : (l.length == 1) = l.contains c := by
  cases l with
  | nil => simp
  | cons x t =>
      have hx : x = c := hall x (by simp)
      subst hx
      cases t with
      | nil => simp
      | cons y t2 =>
          have hy : y = x := hall y (by simp)
          have hmem : x ∈ y :: t2 := by
            rw [hy]
            exact List.mem_cons_self x t2
          exact absurd hmem ((List.nodup_cons.1 hn).1)

/-- Pointwise predicate identity for the grant side of `has_perm`. -/
theorem matches_grant_pointwise (u p : Nat) (r : PermRecord) :
    ((PermFilter.matches ⟨some u, some p, none⟩ r) && !r.deny
        && r.user == u && r.perm == p)
      = (r.user == u && r.perm == p && !r.deny) := by
  have h : ∀ x y d : Bool, (x && y && true && !d && x && y) = (x && y && !d) := by
    decide
  exact h (r.user == u) (r.perm == p) r.deny

/-- Pointwise predicate identity for the deny side of `has_perm`. -/
theorem matches_deny_pointwise (u p : Nat) (r : PermRecord) :
    ((PermFilter.matches ⟨some u, some p, none⟩ r) && r.deny
        && r.user == u && r.perm == p)
      = (r.user == u && r.perm == p && r.deny) := by
  have h : ∀ x y d : Bool, (x && y && true && d && x && y) = (x && y && d) := by
    decide
  exact h (r.user == u) (r.perm == p) r.deny

/-- **C4.**  `_effective_perms` is a bare set difference — a pair is
effective iff a matching grant row exists and no matching deny row exists,
with no precedence rule beyond that (the rows' `inherited` flags are
irrelevant); consequently `has_perm` is true iff some grant row for the
(user, permission) pair exists and no deny row for the same pair exists,
so a single deny row — explicit or inherited — cancels any grant. -/
theorem effective_perms_set_difference (recs : List PermRecord)
    (f : PermFilter) (a b u p : Nat) :
    ((effective_perms recs f).contains (a, b)
        = ((recs.any fun r => f.matches r && !r.deny && r.user == a && r.perm == b)
            && !(recs.any fun r => f.matches r && r.deny && r.user == a && r.perm == b)))
      ∧ (has_perm recs u p
          = ((recs.any fun r => r.user == u && r.perm == p && !r.deny)
              && !(recs.any fun r => r.user == u && r.perm == p && r.deny))) := by
  have hmain : ∀ (f : PermFilter) (a b : Nat),
      (effective_perms recs f).contains (a, b)
        = ((recs.any fun r => f.matches r && !r.deny && r.user == a && r.perm == b)
            && !(recs.any fun r => f.matches r && r.deny && r.user == a && r.perm == b)) := by
    intro f a b
    rw [Bool.eq_iff_iff, list_contains_eq_true_iff, effective_perms_mem_iff,
      Bool.and_eq_true, Bool.not_eq_true']
    constructor
    · rintro ⟨⟨r, hr, hm, hdeny, hu, hp⟩, hnd⟩
      constructor
      · exact List.any_eq_true.2 ⟨r, hr, by simp [hm, hdeny, hu, hp]⟩
      · rw [List.any_eq_false]
        intro s hs hcon
        simp only [Bool.and_eq_true, beq_iff_eq] at hcon
        exact hnd ⟨s, hs, hcon.1.1.1, hcon.1.1.2, hcon.1.2, hcon.2⟩
    · rintro ⟨hG, hD⟩
      obtain ⟨r, hr, hcon⟩ := List.any_eq_true.1 hG
      simp only [Bool.and_eq_true, beq_iff_eq, Bool.not_eq_true'] at hcon
      refine ⟨⟨r, hr, hcon.1.1.1, hcon.1.1.2, hcon.1.2, hcon.2⟩, ?_⟩
      rintro ⟨s, hs, hsm, hsd, hsu, hsp⟩
      have hfa := List.any_eq_false.1 hD s hs
      apply hfa
      simp [hsm, hsd, hsu, hsp]
  refine ⟨hmain f a b, ?_⟩
  have h1 : has_perm recs u p
      = (effective_perms recs ⟨some u, some p, none⟩).contains (u, p) := by
    unfold has_perm
    exact length_eq_one_subsingleton _ _
      (effective_perms_nodup recs ⟨some u, some p, none⟩)
      (effective_perms_filtered_subsingleton recs u p)
  rw [h1, hmain ⟨some u, some p, none⟩ u p]
  have hg : (recs.any fun r =>
        (PermFilter.matches ⟨some u, some p, none⟩ r) && !r.deny
          && r.user == u && r.perm == p)
      = recs.any fun r => r.user == u && r.perm == p && !r.deny :=
    congrArg recs.any (funext fun r => matches_grant_pointwise u p r)
  have hd : (recs.any fun r =>
        (PermFilter.matches ⟨some u, some p, none⟩ r) && r.deny
          && r.user == u && r.perm == p)
      = recs.any fun r => r.user == u && r.perm == p && r.deny :=
    congrArg recs.any (funext fun r => matches_deny_pointwise u p r)
  rw [hg, hd]

-- ### Claim C2: owner permissions on root collections

/-- **C2, counterexample.**  The claim asserts that after creating and saving
a root collection (owner user 1, content-type permissions 1,2,3 with 2 =
`change_collection`), `has_perm(root, owner, 'change')` is `true`.  On the
code it is `false`: `_recalculate_inherited_perms` returns as soon as
`self.parent is None`, before the owner-override loop, and a fresh
collection has no permission rows at all. -/
theorem root_owner_change_perm_counterexample :
    has_perm (recalculate_inherited_perms [1, 2, 3] 1 none []) 1 2 = false := by
  decide

/-- **C2, amended.**  For a root collection (no parent), recalculation stops
right after deleting the inherited rows and never runs the owner-override
step; on a freshly created collection (no rows) the owner therefore holds
no effective permission at all: `has_perm` is `false` for every user and
permission, and the row set is empty. -/
theorem root_collection_recalc_grants_nothing (ctPerms : List Nat)
    (owner u p : Nat) :
    recalculate_inherited_perms ctPerms owner none [] = []
      ∧ has_perm (recalculate_inherited_perms ctPerms owner none []) u p = false := by
  constructor
  · rfl
  · rfl

-- ### Claim C6: recalculation is an idempotent full replace

/-- **C6.**  With no intervening mutation (same parent effective set, same
owner, same content-type permission kinds), running
`_recalculate_inherited_perms` a second time reproduces the row list of the
first run exactly — same rows, same count: the operation is a full replace
(delete all inherited rows, regenerate wholesale) and is idempotent. -/
theorem recalculate_inherited_perms_idempotent (ctPerms : List Nat)
    (owner : Nat) (parentEff : Option (List (Nat × Nat)))
    (recs : List PermRecord) :
    recalculate_inherited_perms ctPerms owner parentEff
        (recalculate_inherited_perms ctPerms owner parentEff recs)
      = recalculate_inherited_perms ctPerms owner parentEff recs := by
  cases parentEff with
  | none =>
      simp [recalculate_inherited_perms, List.filter_filter]
  | some eff =>
      show recalculate_inherited_perms ctPerms owner (some eff)
          (List.foldl (fun acc p => get_or_create_inherited acc owner p)
            ((recs.filter fun r => !r.inherited)
              ++ (eff.map fun q => ⟨q.1, q.2, false, true⟩)) ctPerms)
        = _
      unfold recalculate_inherited_perms
      rw [filter_not_inherited_fold, List.filter_append,
        List.filter_filter, filter_not_inherited_parent_copies]
      simp [Bool.and_self]

-- ### Claim C5: explicit grant/deny exclusivity

/-- The per-pair test inside `explicit_exclusive`, as a proposition. -/
theorem excl_pair_iff (r s : PermRecord) :
    (!(!r.inherited && !s.inherited && r.user == s.user && r.perm == s.perm
        && (r.deny != s.deny))) = true
      ↔ ¬(r.inherited = false ∧ s.inherited = false ∧ r.user = s.user
          ∧ r.perm = s.perm ∧ r.deny ≠ s.deny) := by
  constructor
  · intro h hcon
    rcases hcon with ⟨hri, hsi, hu, hp, hd⟩
    rw [Bool.not_eq_true'] at h
    have hb : (!r.inherited && !s.inherited && r.user == s.user
        && r.perm == s.perm && (r.deny != s.deny)) = true := by
      simp [hri, hsi, hu, hp, bne_iff_ne, hd]
    rw [hb] at h
    cases h
  · intro h
    rw [Bool.not_eq_true']
    cases hb : (!r.inherited && !s.inherited && r.user == s.user
        && r.perm == s.perm && (r.deny != s.deny)) with
    | false => rfl
    | true =>
        simp only [Bool.and_eq_true, Bool.not_eq_true', beq_iff_eq,
          bne_iff_ne] at hb
        exact absurd ⟨hb.1.1.1.1, hb.1.1.1.2, hb.1.1.2, hb.1.2, hb.2⟩ h

/-- `explicit_exclusive` as a proposition over all row pairs. -/
theorem explicit_exclusive_iff (recs : List PermRecord) :
    explicit_exclusive recs = true
      ↔ ∀ r ∈ recs, ∀ s ∈ recs,
          ¬(r.inherited = false ∧ s.inherited = false ∧ r.user = s.user
            ∧ r.perm = s.perm ∧ r.deny ≠ s.deny) := by
  unfold explicit_exclusive
  rw [List.all_eq_true]
  constructor
  · intro h r hr s hs
    exact (excl_pair_iff r s).1 (List.all_eq_true.1 (h r hr) s hs)
  · intro h r hr
    rw [List.all_eq_true]
    intro s hs
    exact (excl_pair_iff r s).2 (h r hr s hs)

/-- A boolean inequality forces the negation. -/
theorem bool_ne_eq_not {a b : Bool} (h : a ≠ b) : a = !b := by
  cases a <;> cases b <;> simp_all

/-- **C5.**  Starting from a store satisfying grant/deny exclusivity, both
`assign_perm` (no-op on an identical explicit row, otherwise delete the
contradictory explicit rows before inserting) and `remove_perm` leave the
node's rows exclusive: an explicit grant and an explicit deny for the same
(user, permission) pair never coexist afterwards. -/
theorem assign_remove_preserve_exclusivity (recs : List PermRecord)
    (u p : Nat) (d : Bool) (h : explicit_exclusive recs = true) :
    explicit_exclusive (assign_perm_records recs u p d) = true
      ∧ explicit_exclusive (remove_perm_records recs u p d) = true := by
  rw [explicit_exclusive_iff] at h
  constructor
  · rw [explicit_exclusive_iff]
    intro r hr s hs hcon
    rcases hcon with ⟨hri, hsi, hu, hp, hd⟩
    by_cases hc : has_identical_explicit recs u p d = true
    · unfold assign_perm_records at hr hs
      rw [if_pos hc] at hr hs
      exact h r hr s hs ⟨hri, hsi, hu, hp, hd⟩
    · unfold assign_perm_records at hr hs
      rw [if_neg hc] at hr hs
      rw [List.mem_append] at hr hs
      rcases hr with hr | hr <;> rcases hs with hs | hs
      · exact h r (List.mem_filter.1 hr).1 s (List.mem_filter.1 hs).1
          ⟨hri, hsi, hu, hp, hd⟩
      · -- s is the new row ⟨u, p, d, false⟩; r contradicts the filter
        rw [List.mem_singleton] at hs
        subst hs
        have hpred := (List.mem_filter.1 hr).2
        rw [Bool.not_eq_true'] at hpred
        have : (r.user == u && r.perm == p && r.deny == !d
            && !r.inherited) = true := by
          simp [hu, hp, hri, bool_ne_eq_not hd]
        rw [this] at hpred
        cases hpred
      · -- r is the new row; s contradicts the filter
        rw [List.mem_singleton] at hr
        subst hr
        have hpred := (List.mem_filter.1 hs).2
        rw [Bool.not_eq_true'] at hpred
        have : (s.user == u && s.perm == p && s.deny == !d
            && !s.inherited) = true := by
          simp [hu.symm, hp.symm, hsi, bool_ne_eq_not (Ne.symm hd)]
        rw [this] at hpred
        cases hpred
      · rw [List.mem_singleton] at hr hs
        subst hr
        subst hs
        exact hd rfl
  · rw [explicit_exclusive_iff]
    intro r hr s hs
    unfold remove_perm_records at hr hs
    exact h r (List.mem_filter.1 hr).1 s (List.mem_filter.1 hs).1

/-- Witness for C5 at a concrete store: one explicit deny row plus one
inherited grant row. -/
theorem assign_remove_preserve_exclusivity_witness :
    explicit_exclusive [⟨1, 2, true, false⟩, ⟨3, 4, false, true⟩] = true
      ∧ (explicit_exclusive
            (assign_perm_records [⟨1, 2, true, false⟩, ⟨3, 4, false, true⟩]
              1 2 false) = true
          ∧ explicit_exclusive
              (remove_perm_records [⟨1, 2, true, false⟩, ⟨3, 4, false, true⟩]
                1 2 false) = true) :=
  ⟨by decide,
   assign_remove_preserve_exclusivity [⟨1, 2, true, false⟩, ⟨3, 4, false, true⟩]
     1 2 false (by decide)⟩

-- ### Claim C3: the permission cascade crashes on attached assets

/-- **C3, evaluation at the failing input.**  World: a single collection
(id 1, no parent, owner 1) with one attached survey asset (id 10) and an
empty permission store; content-type permissions 3, 4.  `assign_perm`
first inserts the explicit row for user 2 / permission 3, but the cascade
loop over the node's survey assets then evaluates the unbound name
`suvey_asset` (the loop variable is spelled `survey_asset`), raising
`NameError` before any asset is recalculated; `remove_perm` on the same
world fails the same way after deleting the row. -/
theorem assign_perm_name_error_with_assets :
    assign_perm [3, 4] ⟨[(1, ⟨none, 1, [10], []⟩)], []⟩ 1 2 3 false
        = CascResult.nameError
            ⟨[(1, ⟨none, 1, [10], []⟩)], [(1, [⟨2, 3, false, false⟩])]⟩
            "suvey_asset"
      ∧ remove_perm [3, 4] ⟨[(1, ⟨none, 1, [10], []⟩)],
            [(1, [⟨2, 3, false, false⟩])]⟩ 1 2 3 false
        = CascResult.nameError
            ⟨[(1, ⟨none, 1, [10], []⟩)], [(1, [])]⟩ "suvey_asset" := by
  constructor
  · rfl
  · rfl

-- ### Claim C7: asset-kind inference on save

/-- **C7.**  On every `Asset.save` the asset type becomes exactly
`infer_asset_type` of the current type and the fresh summary row count,
and that transition only moves between `question` and `block`:
for a `question`/`block` asset, row count 1 forces `question` and row
count `n > 1` forces `block`, while `text`, `survey` and `empty` assets
are never auto-transitioned. -/
theorem asset_save_kind_inference (aF : Nat → Nat × Option String)
    (rF : Nat → Option Nat) (ac cv : Bool) (a : AssetSt) (rc : Option Nat)
    (n : Nat) :
    ((asset_save aF rF ac cv a).assetType
        = infer_asset_type a.assetType (rF (adjusted_content aF a ac)))
      ∧ ((a.assetType = AssetType.question ∨ a.assetType = AssetType.block) →
          (rc = some 1 → infer_asset_type a.assetType rc = AssetType.question)
            ∧ (rc = some n → 1 < n →
                infer_asset_type a.assetType rc = AssetType.block))
      ∧ ((a.assetType = AssetType.text ∨ a.assetType = AssetType.survey
            ∨ a.assetType = AssetType.empty) →
          infer_asset_type a.assetType rc = a.assetType) := by
  refine ⟨?_, ?_, ?_⟩
  · cases cv <;> rfl
  · intro hk
    constructor
    · intro h1
      subst h1
      unfold infer_asset_type
      rw [if_pos hk, if_pos rfl]
    · intro hn hgt
      subst hn
      have h1 : (some n : Option Nat) ≠ some 1 := by
        intro hcon
        injection hcon with h
        omega
      unfold infer_asset_type
      rw [if_pos hk, if_neg h1]
      have h2 : py_gt_one (some n) = true := by
        simp [py_gt_one]
        omega
      rw [if_pos h2]
  · intro hk
    have hq : a.assetType ≠ AssetType.question := by
      rcases hk with h | h | h <;> rw [h] <;> intro hcon <;> cases hcon
    have hb : a.assetType ≠ AssetType.block := by
      rcases hk with h | h | h <;> rw [h] <;> intro hcon <;> cases hcon
    unfold infer_asset_type
    rw [if_neg]
    rintro (h | h)
    · exact hq h
    · exact hb h

/-- Witness for C7: a question asset whose summary grows to three rows
transitions to `block` on save; row count 1 keeps `question`; a text asset
never transitions. -/
theorem asset_save_kind_inference_witness :
    ((asset_save aF0 rF3 true true asset_q).assetType
        = infer_asset_type AssetType.question (rF3 (adjusted_content aF0 asset_q true)))
      ∧ infer_asset_type AssetType.question (some 1) = AssetType.question
      ∧ infer_asset_type AssetType.question (some 3) = AssetType.block
      ∧ infer_asset_type AssetType.text (some 3) = AssetType.text :=
  ⟨(asset_save_kind_inference aF0 rF3 true true asset_q (some 3) 3).1,
   ((asset_save_kind_inference aF0 rF3 true true asset_q (some 1) 1).2.1
      (Or.inl rfl)).1 rfl,
   ((asset_save_kind_inference aF0 rF3 true true asset_q (some 3) 3).2.1
      (Or.inl rfl)).2 rfl (by decide),
   (asset_save_kind_inference aF0 rF3 true true
      ⟨"t", none, none, AssetType.text, 0, []⟩ (some 3) 3).2.2 (Or.inl rfl)⟩

-- ### Claim C8: every save appends exactly one version

/-- **C8.**  `Asset.save` with `create_version=True` (the default) appends
exactly one new `AssetVersion` — recording the saved name, the saved
content and the deployment data, with `deployed=False` — while the
existing version rows are preserved unchanged as a prefix; with
`create_version=False` the version list is untouched. -/
theorem asset_save_appends_one_version (aF : Nat → Nat × Option String)
    (rF : Nat → Option Nat) (ac : Bool) (a : AssetSt) :
    (asset_save aF rF ac true a).versions
        = a.versions
          ++ [⟨adjusted_name aF a ac, adjusted_content aF a ac,
               a.deploymentData, false⟩]
      ∧ (asset_save aF rF ac true a).name = adjusted_name aF a ac
      ∧ (asset_save aF rF ac true a).content
          = some (adjusted_content aF a ac)
      ∧ (asset_save aF rF ac false a).versions = a.versions := by
  exact ⟨rfl, rfl, rfl, rfl⟩

-- ### Claim C10: missing or zero row count leaves the kind unchanged

/-- **C10.**  Saving a `question` or `block` asset whose content summary
has no row count (or a row count of 0) leaves the asset type unchanged:
the transition fires only on row count 1 or greater than 1, and the
unenumerated cases fall through. -/
theorem asset_save_without_rowcount_keeps_kind (aF : Nat → Nat × Option String)
    (rF : Nat → Option Nat) (ac cv : Bool) (a : AssetSt)
    (hk : a.assetType = AssetType.question ∨ a.assetType = AssetType.block)
    (hrc : rF (adjusted_content aF a ac) = none
        ∨ rF (adjusted_content aF a ac) = some 0) :
    (asset_save aF rF ac cv a).assetType = a.assetType := by
  have h1 : (asset_save aF rF ac cv a).assetType
      = infer_asset_type a.assetType (rF (adjusted_content aF a ac)) := by
    cases cv <;> rfl
  rw [h1]
  unfold infer_asset_type
  rw [if_pos hk]
  rcases hrc with h | h <;> rw [h] <;> simp [py_gt_one]

/-- Witness for C10: a block asset saved while its analyzer reports no row
count stays a block. -/
theorem asset_save_without_rowcount_keeps_kind_witness :
    (asset_b.assetType = AssetType.question
        ∨ asset_b.assetType = AssetType.block)
      ∧ (rF_missing (adjusted_content aF0 asset_b true) = none
          ∨ rF_missing (adjusted_content aF0 asset_b true) = some 0)
      ∧ (asset_save aF0 rF_missing true true asset_b).assetType
          = asset_b.assetType :=
  ⟨Or.inr rfl, Or.inl rfl,
   asset_save_without_rowcount_keeps_kind aF0 rF_missing true true asset_b
     (Or.inr rfl) (Or.inl rfl)⟩
